import Mathlib

/-!
Verification of the cache-aside response-caching subsystem: the `CacheService`
facade (JSON (de)serialization with raw-string fallback, fail-open execution
wrapper, hit/miss/set/delete/error counters, pattern invalidation, health
check) and the response-cache / invalidation middlewares.

The embedding models machine behavior shallowly:
* JavaScript values passed to `set` are modelled by the inductive `JsVal`
  (JSON values with integer numbers); `JSON.stringify` is `stringify` and
  `JSON.parse` is `parseJson` (a fuel-based recursive-descent parser that
  accepts exactly the integer-number JSON grammar without surrounding
  whitespace; this suffices for the serialization round-trip questions).
* The Redis client is modelled by an association-list `Store` plus a
  `CallOutcome` parameter saying whether the awaited client call succeeds or
  throws; TTL expiry is delegated to the backing store in the source and is
  not modelled (the round-trip claims assume no intervening expiry).
* Each `CacheService` method becomes a pure function from the connection
  flag, the call outcome, the store and the `CacheStats` counters to its
  result and the updated counters; the fact that the Lean functions are
  total models "no exception escapes to the caller".
-/

/-- JSON values as produced by the service's (de)serialization layer.
Numbers are restricted to integers, which the claims under study exercise. -/
inductive JsVal where
  | null : JsVal
  | bool : Bool → JsVal
  | num : Int → JsVal
  | str : String → JsVal
  | arr : List JsVal → JsVal
  | obj : List (String × JsVal) → JsVal
deriving BEq

/-- Opening brace character (written via its unicode escape). -/
def lbrace : Char := '\u007B'

/-- Closing brace character (written via its unicode escape). -/
def rbrace : Char := '\u007D'

/-- Decimal digit character for a digit value. -/
def digitChar : Nat → Char
  | 0 => '0'
  | 1 => '1'
  | 2 => '2'
  | 3 => '3'
  | 4 => '4'
  | 5 => '5'
  | 6 => '6'
  | 7 => '7'
  | 8 => '8'
  | 9 => '9'
  | _ => 'x'

/-- Is this character a decimal digit? -/
def isDigitChar (c : Char) : Bool := decide ('0' ≤ c ∧ c ≤ '9')

/-- Numeric value of a digit character. -/
def digitVal (c : Char) : Nat := c.toNat - 48

/-- Decimal digits of a natural number, most significant first. -/
def natChars (n : Nat) : List Char :=
  if n < 10 then [digitChar n]
  else natChars (n / 10) ++ [digitChar (n % 10)]
decreasing_by exact Nat.div_lt_self (by omega) (by omega)

/-- Decimal form of an integer (minus sign for negatives). -/
def intChars (n : Int) : List Char :=
  if n < 0 then '-' :: natChars n.natAbs else natChars n.toNat

/-- JSON string escaping of one character (quote and backslash). -/
def escapeChar (c : Char) : List Char :=
  if c = '"' ∨ c = '\\' then ['\\', c] else [c]

/-- JSON string escaping of a character list. -/
def escapeStr : List Char → List Char
  | [] => []
  | c :: t => escapeChar c ++ escapeStr t

/-- A JSON string literal: quote, escaped body, quote. -/
def strLitChars (s : String) : List Char :=
  '"' :: (escapeStr s.data ++ ['"'])

mutual

/-- Characters of `JSON.stringify` applied to a value. -/
def stringifyChars : JsVal → List Char
  | .null => "null".data
  | .bool true => "true".data
  | .bool false => "false".data
  | .num n => intChars n
  | .str s => strLitChars s
  | .arr es => '[' :: (elemsChars es ++ [']'])
  | .obj fs => lbrace :: (fieldsChars fs ++ [rbrace])

/-- Comma-separated stringification of array elements. -/
def elemsChars : List JsVal → List Char
  | [] => []
  | [v] => stringifyChars v
  | v :: vs => stringifyChars v ++ (',' :: elemsChars vs)

/-- Comma-separated stringification of object fields. -/
def fieldsChars : List (String × JsVal) → List Char
  | [] => []
  | [(k, v)] => strLitChars k ++ (':' :: stringifyChars v)
  | (k, v) :: fs => strLitChars k ++ (':' :: (stringifyChars v ++ (',' :: fieldsChars fs)))

end

/-- `JSON.stringify` on the modelled values. -/
def stringify (v : JsVal) : String := String.mk (stringifyChars v)

/-- Greedily read decimal digits, accumulating their value. -/
def readDigits : List Char → Nat → Nat × List Char
  | [], acc => (acc, [])
  | c :: t, acc =>
    if isDigitChar c then readDigits t (acc * 10 + digitVal c) else (acc, c :: t)

/-- Read a JSON string body up to the closing quote, undoing escapes. -/
def readStrBody : List Char → List Char → Option (String × List Char)
  | _, [] => none
  | acc, c :: t =>
    if c = '"' then some (String.mk acc.reverse, t)
    else if c = '\\' then
      match t with
      | [] => none
      | d :: t2 => readStrBody (d :: acc) t2
    else readStrBody (c :: acc) t

/-- Does the input begin with a decimal digit? -/
def digitStart : List Char → Bool
  | [] => false
  | c :: _ => isDigitChar c

/-- Dispatch on the first character of a JSON value; `pe` and `pf` parse
element and field lists at the remaining fuel. -/
def parseValBranch (pe : List Char → Option (List JsVal × List Char))
    (pf : List Char → Option (List (String × JsVal) × List Char))
    (c : Char) (t : List Char) : Option (JsVal × List Char) :=
    if c = 'n' then
      match t with
      | 'u' :: 'l' :: 'l' :: r => some (.null, r)
      | _ => none
    else if c = 't' then
      match t with
      | 'r' :: 'u' :: 'e' :: r => some (.bool true, r)
      | _ => none
    else if c = 'f' then
      match t with
      | 'a' :: 'l' :: 's' :: 'e' :: r => some (.bool false, r)
      | _ => none
    else if c = '"' then
      match readStrBody [] t with
      | some (s, r) => some (.str s, r)
      | none => none
    else if c = '-' then
      match t with
      | [] => none
      | d :: t2 =>
        if isDigitChar d then
          let p := readDigits (d :: t2) 0
          some (.num (-(p.1 : Int)), p.2)
        else none
    else if isDigitChar c then
      let p := readDigits (c :: t) 0
      some (.num (p.1 : Int), p.2)
    else if c = '[' then
      match t with
      | ']' :: r => some (.arr [], r)
      | _ =>
        match pe t with
        | some (es, r) => some (.arr es, r)
        | none => none
    else if c = lbrace then
      match t with
      | [] => none
      | d :: r =>
        if d = rbrace then some (.obj [], r)
        else
          match pf (d :: r) with
          | some (fs, r2) => some (.obj fs, r2)
          | none => none
    else none

/-- One step of parsing a JSON value. -/
def parseValStep (pe : List Char → Option (List JsVal × List Char))
    (pf : List Char → Option (List (String × JsVal) × List Char)) :
    List Char → Option (JsVal × List Char)
  | [] => none
  | c :: t => parseValBranch pe pf c t

/-- One step of parsing a comma-separated element list up to `]`. -/
def parseElemsStep (pv : List Char → Option (JsVal × List Char))
    (pe : List Char → Option (List JsVal × List Char))
    (input : List Char) : Option (List JsVal × List Char) :=
  match pv input with
  | none => none
  | some (v, r) =>
    match r with
    | ']' :: r2 => some ([v], r2)
    | ',' :: r2 =>
      match pe r2 with
      | some (vs, r3) => some (v :: vs, r3)
      | none => none
    | _ => none

/-- Body of a field-list parsing step, after the opening quote of the key. -/
def parseFieldsBranch (pv : List Char → Option (JsVal × List Char))
    (pf : List Char → Option (List (String × JsVal) × List Char))
    (t : List Char) : Option (List (String × JsVal) × List Char) :=
    match readStrBody [] t with
    | none => none
    | some (k, r) =>
      match r with
      | ':' :: r2 =>
        match pv r2 with
        | none => none
        | some (v, r3) =>
          match r3 with
          | [] => none
          | c :: r4 =>
            if c = rbrace then some ([(k, v)], r4)
            else if c = ',' then
              match pf r4 with
              | some (fs, r5) => some ((k, v) :: fs, r5)
              | none => none
            else none
      | _ => none

/-- One step of parsing a comma-separated field list up to the closing
brace. -/
def parseFieldsStep (pv : List Char → Option (JsVal × List Char))
    (pf : List Char → Option (List (String × JsVal) × List Char)) :
    List Char → Option (List (String × JsVal) × List Char)
  | '"' :: t => parseFieldsBranch pv pf t
  | _ => none

mutual

/-- Fuel-based recursive-descent parser for one JSON value. -/
def parseVal : Nat → List Char → Option (JsVal × List Char)
  | 0, _ => none
  | fuel + 1, input => parseValStep (parseElems fuel) (parseFields fuel) input

/-- Parse one or more comma-separated array elements up to `]`. -/
def parseElems : Nat → List Char → Option (List JsVal × List Char)
  | 0, _ => none
  | fuel + 1, input => parseElemsStep (parseVal fuel) (parseElems fuel) input

/-- Parse one or more comma-separated object fields up to the closing
brace. -/
def parseFields : Nat → List Char → Option (List (String × JsVal) × List Char)
  | 0, _ => none
  | fuel + 1, input => parseFieldsStep (parseVal fuel) (parseFields fuel) input

end

/-- `JSON.parse` on the modelled grammar: parse a full value consuming the
whole input (parse failure is modelled as `none`, standing for the thrown
`SyntaxError` that the service catches). -/
def parseJson (s : String) : Option JsVal :=
  match parseVal (s.length + 1) s.data with
  | some (v, []) => some v
  | _ => none

/-! ### Round-trip lemmas for the serialization layer -/

theorem digitChar_spec (d : Nat) (h : d < 10) :
    isDigitChar (digitChar d) = true ∧ digitVal (digitChar d) = d := by
  interval_cases d <;> exact ⟨by decide, by decide⟩

theorem digit_ne {c d : Char} (h : isDigitChar c = true) (hd : isDigitChar d = false) :
    c ≠ d := by
  intro he
  subst he
  rw [h] at hd
  cases hd

theorem natChars_cons (n : Nat) :
    ∃ c cs, natChars n = c :: cs ∧ isDigitChar c = true := by
  induction n using Nat.strong_induction_on with
  | _ n ih =>
    rw [natChars]
    by_cases h : n < 10
    · exact ⟨digitChar n, [], by rw [if_pos h], (digitChar_spec n h).1⟩
    · obtain ⟨c, cs, hc, hdig⟩ := ih (n / 10) (Nat.div_lt_self (by omega) (by omega))
      exact ⟨c, cs ++ [digitChar (n % 10)], by rw [if_neg h, hc]; rfl, hdig⟩

theorem readDigits_natChars (n : Nat) :
    ∀ acc rest, readDigits (natChars n ++ rest) acc =
      readDigits rest (acc * 10 ^ (natChars n).length + n) := by
  induction n using Nat.strong_induction_on with
  | _ n ih =>
    intro acc rest
    rw [natChars]
    by_cases h : n < 10
    · rw [if_pos h]
      have hd := digitChar_spec n h
      simp only [List.cons_append, List.nil_append, readDigits, hd.1, if_true, hd.2,
        List.length_singleton, pow_one]
      rfl
    · rw [if_neg h]
      have hstep : n / 10 < n := Nat.div_lt_self (by omega) (by omega)
      have hd := digitChar_spec (n % 10) (Nat.mod_lt n (by omega))
      rw [List.append_assoc, List.singleton_append, ih (n / 10) hstep acc]
      simp only [readDigits, hd.1, if_true, hd.2]
      have harith : (acc * 10 ^ (natChars (n / 10)).length + n / 10) * 10 + n % 10 =
          acc * 10 ^ (natChars (n / 10) ++ [digitChar (n % 10)]).length + n := by
        have hmod : n / 10 * 10 + n % 10 = n := by omega
        calc (acc * 10 ^ (natChars (n / 10)).length + n / 10) * 10 + n % 10
            = acc * (10 ^ (natChars (n / 10)).length * 10) + (n / 10 * 10 + n % 10) := by
              ring
          _ = acc * 10 ^ (natChars (n / 10)).length.succ + n := by
              rw [hmod, pow_succ]
          _ = acc * 10 ^ (natChars (n / 10) ++ [digitChar (n % 10)]).length + n := by
              rw [List.length_append, List.length_singleton]
      rw [harith]

theorem readDigits_stop (rest : List Char) (a : Nat) (h : digitStart rest = false) :
    readDigits rest a = (a, rest) := by
  cases rest with
  | nil => rfl
  | cons c t =>
    simp only [digitStart] at h
    simp [readDigits, h]

theorem readStrBody_cons (acc : List Char) (c : Char) (t : List Char) :
    readStrBody acc (c :: t) =
      if c = '"' then some (String.mk acc.reverse, t)
      else if c = '\\' then
        match t with
        | [] => none
        | d :: t2 => readStrBody (d :: acc) t2
      else readStrBody (c :: acc) t := by
  rw [readStrBody.eq_def]

theorem readStrBody_escape (cs : List Char) :
    ∀ acc rest, readStrBody acc (escapeStr cs ++ ('"' :: rest)) =
      some (String.mk (acc.reverse ++ cs), rest) := by
  induction cs with
  | nil =>
    intro acc rest
    simp only [escapeStr, List.nil_append, readStrBody_cons, if_pos rfl]
    simp
  | cons c t ih =>
    intro acc rest
    simp only [escapeStr, escapeChar]
    by_cases h : c = '"' ∨ c = '\\'
    · rw [if_pos h]
      have h1 : ¬ (('\\' : Char) = '"') := by decide
      simp only [List.cons_append, List.nil_append, List.append_assoc]
      rw [readStrBody_cons, if_neg h1, if_pos rfl]
      show readStrBody (c :: acc) (escapeStr t ++ ('"' :: rest)) = _
      rw [ih]
      simp
    · rw [if_neg h]
      push_neg at h
      simp only [List.cons_append, List.nil_append]
      rw [readStrBody_cons, if_neg h.1, if_neg h.2]
      rw [ih]
      simp

theorem parseVal_succ (fuel : Nat) (input : List Char) :
    parseVal (fuel + 1) input = parseValStep (parseElems fuel) (parseFields fuel) input := rfl

theorem parseElems_succ (fuel : Nat) (input : List Char) :
    parseElems (fuel + 1) input = parseElemsStep (parseVal fuel) (parseElems fuel) input := rfl

theorem parseFields_succ (fuel : Nat) (input : List Char) :
    parseFields (fuel + 1) input = parseFieldsStep (parseVal fuel) (parseFields fuel) input := rfl

theorem stringify_head (v : JsVal) :
    ∃ c cs, stringifyChars v = c :: cs ∧ ¬(c = ']') := by
  cases v with
  | null => exact ⟨'n', _, rfl, by decide⟩
  | bool b => cases b with
    | true => exact ⟨'t', _, rfl, by decide⟩
    | false => exact ⟨'f', _, rfl, by decide⟩
  | num n =>
    show ∃ c cs, intChars n = c :: cs ∧ ¬(c = ']')
    rw [intChars]
    by_cases h : n < 0
    · rw [if_pos h]
      exact ⟨'-', _, rfl, by decide⟩
    · rw [if_neg h]
      obtain ⟨c, cs, hc, hdig⟩ := natChars_cons n.toNat
      exact ⟨c, cs, hc, digit_ne hdig (by decide)⟩
  | str s => exact ⟨'"', _, rfl, by decide⟩
  | arr es => exact ⟨'[', _, rfl, by decide⟩
  | obj fs => exact ⟨lbrace, _, rfl, by decide⟩

theorem one_le_len_stringify (v : JsVal) : 1 ≤ (stringifyChars v).length := by
  obtain ⟨c, cs, hc, _⟩ := stringify_head v
  rw [hc]
  simp

theorem one_le_len_elems (es : List JsVal) (h : es ≠ []) : 1 ≤ (elemsChars es).length := by
  cases es with
  | nil => exact absurd rfl h
  | cons v vs =>
    cases vs with
    | nil => simpa [elemsChars] using one_le_len_stringify v
    | cons w ws =>
      simp only [elemsChars, List.length_append]
      have := one_le_len_stringify v
      omega

theorem two_le_len_strLit (s : String) : 2 ≤ (strLitChars s).length := by
  simp [strLitChars]

theorem one_le_len_fields (fs : List (String × JsVal)) (h : fs ≠ []) :
    1 ≤ (fieldsChars fs).length := by
  cases fs with
  | nil => exact absurd rfl h
  | cons f ft =>
    obtain ⟨k, v⟩ := f
    cases ft with
    | nil =>
      simp only [fieldsChars, List.length_append]
      have := two_le_len_strLit k
      omega
    | cons g gt =>
      simp only [fieldsChars, List.length_append]
      have := two_le_len_strLit k
      omega

theorem string_mk_data (s : String) : String.mk s.data = s := rfl

theorem digitStart_cons (c : Char) (t : List Char) : digitStart (c :: t) = isDigitChar c := rfl


theorem parseValStep_null (pe : List Char → Option (List JsVal × List Char))
    (pf : List Char → Option (List (String × JsVal) × List Char)) (r : List Char) :
    parseValStep pe pf ('n' :: ('u' :: ('l' :: ('l' :: r)))) = some (.null, r) := rfl

theorem parseValStep_true (pe : List Char → Option (List JsVal × List Char))
    (pf : List Char → Option (List (String × JsVal) × List Char)) (r : List Char) :
    parseValStep pe pf ('t' :: ('r' :: ('u' :: ('e' :: r)))) = some (.bool true, r) := rfl

theorem parseValStep_false (pe : List Char → Option (List JsVal × List Char))
    (pf : List Char → Option (List (String × JsVal) × List Char)) (r : List Char) :
    parseValStep pe pf ('f' :: ('a' :: ('l' :: ('s' :: ('e' :: r))))) = some (.bool false, r) := rfl

theorem parseValStep_quote (pe : List Char → Option (List JsVal × List Char))
    (pf : List Char → Option (List (String × JsVal) × List Char)) (t : List Char) :
    parseValStep pe pf ('"' :: t) =
      (match readStrBody [] t with
      | some (s, r) => some (.str s, r)
      | none => none) := rfl

theorem parseValStep_minus (pe : List Char → Option (List JsVal × List Char))
    (pf : List Char → Option (List (String × JsVal) × List Char)) (d : Char) (t2 : List Char) :
    parseValStep pe pf ('-' :: (d :: t2)) =
      (if isDigitChar d then
        some (.num (-((readDigits (d :: t2) 0).1 : Int)), (readDigits (d :: t2) 0).2)
      else none) := rfl

theorem parseValStep_digit (pe : List Char → Option (List JsVal × List Char))
    (pf : List Char → Option (List (String × JsVal) × List Char)) (c : Char) (t : List Char)
    (h : isDigitChar c = true) :
    parseValStep pe pf (c :: t) =
      some (.num ((readDigits (c :: t) 0).1 : Int), (readDigits (c :: t) 0).2) := by
  show parseValBranch pe pf c t = _
  unfold parseValBranch
  rw [if_neg (digit_ne h (by decide)), if_neg (digit_ne h (by decide)),
    if_neg (digit_ne h (by decide)), if_neg (digit_ne h (by decide)),
    if_neg (digit_ne h (by decide)), if_pos h]

theorem parseValStep_arrNil (pe : List Char → Option (List JsVal × List Char))
    (pf : List Char → Option (List (String × JsVal) × List Char)) (r : List Char) :
    parseValStep pe pf ('[' :: (']' :: r)) = some (.arr [], r) := rfl

theorem parseValStep_arrCons (pe : List Char → Option (List JsVal × List Char))
    (pf : List Char → Option (List (String × JsVal) × List Char)) (c : Char) (X : List Char)
    (h : ¬(c = ']')) :
    parseValStep pe pf ('[' :: (c :: X)) =
      (match pe (c :: X) with
      | some (es, r) => some (.arr es, r)
      | none => none) := by
  show (match c :: X with
      | ']' :: r => some (JsVal.arr [], r)
      | _ =>
        match pe (c :: X) with
        | some (es, r) => some (.arr es, r)
        | none => none) = _
  split
  · rename_i r heq
    rw [List.cons.injEq] at heq
    exact absurd heq.1 h
  · rfl

theorem parseValStep_objNil (pe : List Char → Option (List JsVal × List Char))
    (pf : List Char → Option (List (String × JsVal) × List Char)) (r : List Char) :
    parseValStep pe pf (lbrace :: (rbrace :: r)) = some (.obj [], r) := rfl

theorem parseValStep_objCons (pe : List Char → Option (List JsVal × List Char))
    (pf : List Char → Option (List (String × JsVal) × List Char)) (d : Char) (X : List Char)
    (h : ¬(d = rbrace)) :
    parseValStep pe pf (lbrace :: (d :: X)) =
      (match pf (d :: X) with
      | some (fs, r) => some (.obj fs, r)
      | none => none) := by
  show (if d = rbrace then some (JsVal.obj [], X)
      else
        match pf (d :: X) with
        | some (fs, r) => some (.obj fs, r)
        | none => none) = _
  rw [if_neg h]

theorem parseFieldsStep_key (pv : List Char → Option (JsVal × List Char))
    (pf : List Char → Option (List (String × JsVal) × List Char))
    (kd : List Char) (r2 : List Char) :
    parseFieldsStep pv pf ('"' :: (escapeStr kd ++ ('"' :: (':' :: r2)))) =
      (match pv r2 with
      | none => none
      | some (v, r3) =>
        match r3 with
        | [] => none
        | c :: r4 =>
          if c = rbrace then some ([(String.mk kd, v)], r4)
          else if c = ',' then
            match pf r4 with
            | some (fs, r5) => some ((String.mk kd, v) :: fs, r5)
            | none => none
          else none) := by
  show parseFieldsBranch pv pf (escapeStr kd ++ ('"' :: (':' :: r2))) = _
  unfold parseFieldsBranch
  rw [readStrBody_escape]
  rfl

theorem parse_stringify_aux : ∀ F : Nat,
    (∀ v rest, (stringifyChars v).length < F → digitStart rest = false →
      parseVal F (stringifyChars v ++ rest) = some (v, rest)) ∧
    (∀ es rest, es ≠ [] → (elemsChars es).length + 1 < F →
      parseElems F (elemsChars es ++ (']' :: rest)) = some (es, rest)) ∧
    (∀ fs rest, fs ≠ [] → (fieldsChars fs).length + 1 < F →
      parseFields F (fieldsChars fs ++ (rbrace :: rest)) = some (fs, rest)) := by
  intro F
  induction F with
  | zero =>
    refine ⟨fun v rest hlen _ => absurd hlen (by omega),
      fun es rest _ hlen => absurd hlen (by omega),
      fun fs rest _ hlen => absurd hlen (by omega)⟩
  | succ F ih =>
    obtain ⟨ihv, ihe, ihf⟩ := ih
    refine ⟨?_, ?_, ?_⟩
    · intro v rest hlen hdig
      rw [parseVal_succ]
      cases v with
      | null =>
        show parseValStep _ _ ((['n', 'u', 'l', 'l'] : List Char) ++ rest) = _
        simp only [List.cons_append, List.nil_append]
        exact parseValStep_null _ _ rest
      | bool b =>
        cases b with
        | true =>
          show parseValStep _ _ ((['t', 'r', 'u', 'e'] : List Char) ++ rest) = _
          simp only [List.cons_append, List.nil_append]
          exact parseValStep_true _ _ rest
        | false =>
          show parseValStep _ _ ((['f', 'a', 'l', 's', 'e'] : List Char) ++ rest) = _
          simp only [List.cons_append, List.nil_append]
          exact parseValStep_false _ _ rest
      | str s =>
        show parseValStep _ _ (strLitChars s ++ rest) = _
        have hm : strLitChars s ++ rest = '"' :: (escapeStr s.data ++ ('"' :: rest)) := by
          simp [strLitChars]
        rw [hm, parseValStep_quote, readStrBody_escape]
        rfl
      | num n =>
        show parseValStep _ _ (intChars n ++ rest) = _
        rw [intChars]
        by_cases hn : n < 0
        · rw [if_pos hn]
          obtain ⟨d, ds, hd, hdig'⟩ := natChars_cons n.natAbs
          rw [hd]
          show parseValStep _ _ ('-' :: (d :: (ds ++ rest))) = _
          rw [parseValStep_minus, if_pos hdig']
          have hback : d :: (ds ++ rest) = natChars n.natAbs ++ rest := by
            rw [hd]
            rfl
          rw [hback, readDigits_natChars, readDigits_stop _ _ hdig]
          have hz : 0 * 10 ^ (natChars n.natAbs).length + n.natAbs = n.natAbs := by
            simp
          rw [hz]
          have hval : -((n.natAbs : Nat) : Int) = n := by omega
          rw [hval]
        · rw [if_neg hn]
          obtain ⟨d, ds, hd, hdig'⟩ := natChars_cons n.toNat
          rw [hd]
          show parseValStep _ _ (d :: (ds ++ rest)) = _
          rw [parseValStep_digit _ _ _ _ hdig']
          have hback : d :: (ds ++ rest) = natChars n.toNat ++ rest := by
            rw [hd]
            rfl
          rw [hback, readDigits_natChars, readDigits_stop _ _ hdig]
          have hz : 0 * 10 ^ (natChars n.toNat).length + n.toNat = n.toNat := by
            simp
          rw [hz]
          have hval : ((n.toNat : Nat) : Int) = n := by omega
          rw [hval]
      | arr es =>
        cases es with
        | nil =>
          show parseValStep _ _ (('[' :: (elemsChars [] ++ [']'])) ++ rest) = _
          simp only [elemsChars, List.nil_append, List.cons_append]
          exact parseValStep_arrNil _ _ rest
        | cons v vs =>
          have hlen2 : (elemsChars (v :: vs)).length + 1 < F := by
            have : stringifyChars (JsVal.arr (v :: vs)) =
                '[' :: (elemsChars (v :: vs) ++ [']']) := rfl
            rw [this] at hlen
            simp only [List.length_cons, List.length_append, List.length_singleton] at hlen
            omega
          show parseValStep _ _ (('[' :: (elemsChars (v :: vs) ++ [']'])) ++ rest) = _
          have hm : ('[' :: (elemsChars (v :: vs) ++ [']'])) ++ rest =
              '[' :: (elemsChars (v :: vs) ++ (']' :: rest)) := by
            simp
          rw [hm]
          obtain ⟨c, cs, hc, hcne⟩ := stringify_head v
          have hX : ∃ X, elemsChars (v :: vs) ++ (']' :: rest) = c :: X := by
            cases vs with
            | nil =>
              refine ⟨cs ++ (']' :: rest), ?_⟩
              show elemsChars [v] ++ (']' :: rest) = _
              have h1 : elemsChars [v] = stringifyChars v := rfl
              rw [h1, hc]
              rfl
            | cons w ws =>
              refine ⟨cs ++ ((',' :: elemsChars (w :: ws)) ++ (']' :: rest)), ?_⟩
              have h1 : elemsChars (v :: w :: ws) =
                  stringifyChars v ++ (',' :: elemsChars (w :: ws)) := rfl
              rw [h1, hc]
              simp
          obtain ⟨X, hXeq⟩ := hX
          rw [hXeq, parseValStep_arrCons _ _ _ _ hcne, ← hXeq,
            ihe (v :: vs) rest (by simp) hlen2]
      | obj fs =>
        cases fs with
        | nil =>
          show parseValStep _ _ ((lbrace :: (fieldsChars [] ++ [rbrace])) ++ rest) = _
          simp only [fieldsChars, List.nil_append, List.cons_append]
          exact parseValStep_objNil _ _ rest
        | cons f ft =>
          obtain ⟨k, v⟩ := f
          have hlen2 : (fieldsChars ((k, v) :: ft)).length + 1 < F := by
            have : stringifyChars (JsVal.obj ((k, v) :: ft)) =
                lbrace :: (fieldsChars ((k, v) :: ft) ++ [rbrace]) := rfl
            rw [this] at hlen
            simp only [List.length_cons, List.length_append, List.length_singleton] at hlen
            omega
          show parseValStep _ _ ((lbrace :: (fieldsChars ((k, v) :: ft) ++ [rbrace])) ++ rest) = _
          have hm : (lbrace :: (fieldsChars ((k, v) :: ft) ++ [rbrace])) ++ rest =
              lbrace :: (fieldsChars ((k, v) :: ft) ++ (rbrace :: rest)) := by
            simp
          rw [hm]
          have hX : ∃ X, fieldsChars ((k, v) :: ft) ++ (rbrace :: rest) = '"' :: X := by
            cases ft with
            | nil =>
              refine ⟨(escapeStr k.data ++ ['"']) ++
                ((':' :: stringifyChars v) ++ (rbrace :: rest)), ?_⟩
              have h1 : fieldsChars [(k, v)] =
                  strLitChars k ++ (':' :: stringifyChars v) := rfl
              rw [h1]
              simp [strLitChars]
            | cons g gt =>
              refine ⟨(escapeStr k.data ++ ['"']) ++
                ((':' :: (stringifyChars v ++ (',' :: fieldsChars (g :: gt)))) ++
                  (rbrace :: rest)), ?_⟩
              have h1 : fieldsChars ((k, v) :: g :: gt) =
                  strLitChars k ++ (':' :: (stringifyChars v ++ (',' :: fieldsChars (g :: gt)))) := rfl
              rw [h1]
              simp [strLitChars]
          obtain ⟨X, hXeq⟩ := hX
          rw [hXeq, parseValStep_objCons _ _ _ _ (by decide), ← hXeq,
            ihf ((k, v) :: ft) rest (by simp) hlen2]
    · intro es rest hne hlen
      cases es with
      | nil => exact absurd rfl hne
      | cons v vs =>
        rw [parseElems_succ]
        show parseElemsStep (parseVal F) (parseElems F) (elemsChars (v :: vs) ++ (']' :: rest)) = _
        unfold parseElemsStep
        cases vs with
        | nil =>
          have h1 : elemsChars [v] = stringifyChars v := rfl
          rw [h1] at hlen ⊢
          rw [ihv v (']' :: rest) (by omega) (by rw [digitStart_cons]; decide)]
          rfl
        | cons w ws =>
          have h1 : elemsChars (v :: w :: ws) =
              stringifyChars v ++ (',' :: elemsChars (w :: ws)) := rfl
          rw [h1] at hlen ⊢
          have hsv : 1 ≤ (stringifyChars v).length := one_le_len_stringify v
          have hev : 1 ≤ (elemsChars (w :: ws)).length := one_le_len_elems _ (by simp)
          simp only [List.length_append, List.length_cons] at hlen
          have hm : (stringifyChars v ++ (',' :: elemsChars (w :: ws))) ++ (']' :: rest) =
              stringifyChars v ++ (',' :: (elemsChars (w :: ws) ++ (']' :: rest))) := by
            simp
          rw [hm]
          rw [ihv v (',' :: (elemsChars (w :: ws) ++ (']' :: rest))) (by omega)
            (by rw [digitStart_cons]; decide)]
          show (match parseElems F (elemsChars (w :: ws) ++ (']' :: rest)) with
            | some (vs, r3) => some (v :: vs, r3)
            | none => none) = some (v :: w :: ws, rest)
          rw [ihe (w :: ws) rest (by simp) (by omega)]
    · intro fs rest hne hlen
      cases fs with
      | nil => exact absurd rfl hne
      | cons f ft =>
        obtain ⟨k, v⟩ := f
        rw [parseFields_succ]
        have hq : 2 ≤ (strLitChars k).length := two_le_len_strLit k
        have hsv : 1 ≤ (stringifyChars v).length := one_le_len_stringify v
        cases ft with
        | nil =>
          have h1 : fieldsChars [(k, v)] = strLitChars k ++ (':' :: stringifyChars v) := rfl
          rw [h1] at hlen ⊢
          simp only [List.length_append, List.length_cons] at hlen
          have hsl : (strLitChars k).length = (escapeStr k.data).length + 2 := by
            simp [strLitChars]
          have hm : (strLitChars k ++ (':' :: stringifyChars v)) ++ (rbrace :: rest) =
              '"' :: (escapeStr k.data ++
                ('"' :: (':' :: (stringifyChars v ++ (rbrace :: rest))))) := by
            simp [strLitChars]
          rw [hm, parseFieldsStep_key]
          rw [ihv v (rbrace :: rest) (by omega) (by rw [digitStart_cons]; decide)]
          rfl
        | cons g gt =>
          have h1 : fieldsChars ((k, v) :: g :: gt) =
              strLitChars k ++ (':' :: (stringifyChars v ++ (',' :: fieldsChars (g :: gt)))) := rfl
          rw [h1] at hlen ⊢
          have hfl : 1 ≤ (fieldsChars (g :: gt)).length := one_le_len_fields _ (by simp)
          simp only [List.length_append, List.length_cons] at hlen
          have hm : (strLitChars k ++
              (':' :: (stringifyChars v ++ (',' :: fieldsChars (g :: gt))))) ++ (rbrace :: rest) =
              '"' :: (escapeStr k.data ++ ('"' :: (':' :: (stringifyChars v ++
                (',' :: (fieldsChars (g :: gt) ++ (rbrace :: rest))))))) := by
            simp [strLitChars]
          rw [hm, parseFieldsStep_key]
          rw [ihv v (',' :: (fieldsChars (g :: gt) ++ (rbrace :: rest))) (by omega)
            (by rw [digitStart_cons]; decide)]
          show (match parseFields F (fieldsChars (g :: gt) ++ (rbrace :: rest)) with
            | some (fs, r5) => some ((String.mk k.data, v) :: fs, r5)
            | none => none) = some ((k, v) :: g :: gt, rest)
          rw [ihf (g :: gt) rest (by simp) (by omega)]

theorem parseJson_stringify (v : JsVal) : parseJson (stringify v) = some v := by
  have h := (parse_stringify_aux ((stringifyChars v).length + 1)).1 v [] (by omega) rfl
  rw [List.append_nil] at h
  show (match parseVal ((stringify v).length + 1) (stringify v).data with
    | some (w, []) => some w
    | _ => none) = some v
  rw [show (stringify v).data = stringifyChars v from rfl,
    show (stringify v).length = (stringifyChars v).length from rfl, h]

/-! ### The CacheService facade (src cache.service.ts) -/

/-- The process-lifetime counter set kept by the service. -/
structure CacheStats where
  hits : Nat
  misses : Nat
  sets : Nat
  deletes : Nat
  errors : Nat
deriving DecidableEq

/-- Whether an awaited Redis client call succeeds or throws; the outcome is
environmental (network, server state) and is passed in as a parameter. -/
inductive CallOutcome where
  | succeeds : CallOutcome
  | throws : String → CallOutcome
deriving DecidableEq

/-- Result of the `operation` closure given to `executeWithFallback`:
either a value or a thrown error. -/
inductive RedisResult (α : Type) where
  | ok : α → RedisResult α
  | err : String → RedisResult α

/-- The Redis keyspace, modelled as an association list from full key to the
stored string payload; a fresh write shadows older entries.  TTLs are
delegated to the backing store in the source and are not modelled. -/
def Store := List (String × String)

/-- `redis.get`: first binding of the key. -/
def storeGet (st : Store) (k : String) : Option String :=
  (List.find? (fun e => e.1 == k) st).map (fun e => e.2)

/-- `redis.setex`: write a payload under a key (shadowing any older entry). -/
def storeSet (st : Store) (k payload : String) : Store :=
  (k, payload) :: st

/-- `redis.del`: drop every binding of the listed keys. -/
def storeDel (st : Store) (ks : List String) : Store :=
  List.filter (fun e => !(ks.contains e.1)) st

/-- Glob matching for `redis.keys` patterns (`*` matches any substring). -/
def globMatch : List Char → List Char → Bool
  | [], [] => true
  | '*' :: p, k =>
    globMatch p k || (match k with
      | [] => false
      | _ :: k2 => globMatch ('*' :: p) k2)
  | c :: p, d :: k => c = d && globMatch p k
  | _, _ => false
termination_by p k => (p.length, k.length)

/-- `redis.keys`: the keys currently bound that match the glob pattern. -/
def storeKeys (st : Store) (pat : String) : List String :=
  (List.filter (fun e => globMatch pat.data e.1.data) st).map (fun e => e.1)

/-- `CacheService.buildKey`: `prefix ? `${prefix}:${key}` : key` (an empty
prefix string is falsy in the source, hence ignored). -/
def buildKey (key : String) (pfx : Option String) : String :=
  match pfx with
  | some p => if p = "" then key else p ++ ":" ++ key
  | none => key

/-- Serialization in `CacheService.set`: a string value is stored raw,
anything else is `JSON.stringify`ed. -/
def serializeValue (value : JsVal) : String :=
  match value with
  | .str s => s
  | v => stringify v

/-- Deserialization in `CacheService.get`: `JSON.parse` the payload and, if
parsing fails, return the raw string. -/
def deserialize (raw : String) : JsVal :=
  match parseJson raw with
  | some v => v
  | none => .str raw

/-- `CacheService.executeWithFallback`: skip the call entirely when the
connection flag is down; when the call throws, bump the `errors` counter and
run the fallback.  Totality of this function models that no exception
escapes to the caller. -/
def executeWithFallback {α : Type} (isConnected : Bool)
    (operation : CacheStats → RedisResult (α × CacheStats))
    (fallback : CacheStats → α × CacheStats)
    (stats : CacheStats) : α × CacheStats :=
  if isConnected then
    match operation stats with
    | .ok res => res
    | .err _ => fallback { stats with errors := stats.errors + 1 }
  else fallback stats

namespace CacheService

/-- `CacheService.get`: read a key; on a hit bump `hits` and deserialize, on
a miss bump `misses` and return `null`; fallback bumps `misses` and returns
`null`.  The Redis read result is a function of the store; whether the call
throws is the `oc` parameter. -/
def get (isConnected : Bool) (oc : CallOutcome) (store : Store)
    (key : String) (pfx : Option String) (stats : CacheStats) :
    Option JsVal × CacheStats :=
  executeWithFallback isConnected
    (fun s =>
      match oc with
      | .throws m => .err m
      | .succeeds =>
        match storeGet store (buildKey key pfx) with
        | some raw => .ok (some (deserialize raw), { s with hits := s.hits + 1 })
        | none => .ok (none, { s with misses := s.misses + 1 }))
    (fun s => (none, { s with misses := s.misses + 1 }))
    stats

/-- `CacheService.set`: serialize and `setex` the value, bump `sets`, return
`true`; fallback returns `false` and leaves the store untouched. -/
def set (isConnected : Bool) (oc : CallOutcome) (store : Store)
    (key : String) (value : JsVal) (pfx : Option String) (stats : CacheStats) :
    (Bool × Store) × CacheStats :=
  executeWithFallback isConnected
    (fun s =>
      match oc with
      | .throws m => .err m
      | .succeeds =>
        .ok ((true, storeSet store (buildKey key pfx) (serializeValue value)),
          { s with sets := s.sets + 1 }))
    (fun s => ((false, store), s))
    stats

/-- `CacheService.delete`: `del` the key, bump `deletes`, return whether a
binding was removed; fallback returns `false`. -/
def delete (isConnected : Bool) (oc : CallOutcome) (store : Store)
    (key : String) (pfx : Option String) (stats : CacheStats) :
    (Bool × Store) × CacheStats :=
  executeWithFallback isConnected
    (fun s =>
      match oc with
      | .throws m => .err m
      | .succeeds =>
        let fullKey := buildKey key pfx
        let result : Nat := if (storeGet store fullKey).isSome then 1 else 0
        .ok ((decide (result > 0), storeDel store [fullKey]),
          { s with deletes := s.deletes + 1 }))
    (fun s => ((false, store), s))
    stats

/-- `CacheService.exists` (named `existsOp` because `exists` is reserved):
`EXISTS` probe returning whether the count equals one; touches no counter on
the success path; fallback returns `false`. -/
def existsOp (isConnected : Bool) (oc : CallOutcome) (store : Store)
    (key : String) (pfx : Option String) (stats : CacheStats) :
    Bool × CacheStats :=
  executeWithFallback isConnected
    (fun s =>
      match oc with
      | .throws m => .err m
      | .succeeds =>
        let result : Nat := if (storeGet store (buildKey key pfx)).isSome then 1 else 0
        .ok ((result == 1), s))
    (fun s => (false, s))
    stats

/-- `CacheService.flush`: with a pattern, scan and bulk-delete the matches;
without one, `flushall`; returns `true`; fallback returns `false`. -/
def flush (isConnected : Bool) (oc : CallOutcome) (store : Store)
    (pat : Option String) (stats : CacheStats) :
    (Bool × Store) × CacheStats :=
  executeWithFallback isConnected
    (fun s =>
      match oc with
      | .throws m => .err m
      | .succeeds =>
        match pat with
        | some p =>
          let keys := storeKeys store p
          if keys.length > 0 then .ok ((true, storeDel store keys), s)
          else .ok ((true, store), s)
        | none => .ok ((true, ([] : Store)), s))
    (fun s => ((false, store), s))
    stats

/-- The body of `results.map` in `CacheService.getMultiple`: per entry, bump
`hits` and deserialize, or bump `misses` and yield `null`. -/
def mapResults : List (Option String) → CacheStats → List (Option JsVal) × CacheStats
  | [], s => ([], s)
  | some raw :: rest, s =>
    let p := mapResults rest { s with hits := s.hits + 1 }
    (some (deserialize raw) :: p.1, p.2)
  | none :: rest, s =>
    let p := mapResults rest { s with misses := s.misses + 1 }
    (none :: p.1, p.2)

/-- `CacheService.getMultiple`: `mget` all keys and map each result; the
fallback maps every key to `null`, bumping `misses` once per key (the
source's `keys.map(() => { this.stats.misses++; return null; })`). -/
def getMultiple (isConnected : Bool) (oc : CallOutcome) (store : Store)
    (keys : List String) (pfx : Option String) (stats : CacheStats) :
    List (Option JsVal) × CacheStats :=
  executeWithFallback isConnected
    (fun s =>
      match oc with
      | .throws m => .err m
      | .succeeds =>
        mapResults (keys.map (fun k => storeGet store (buildKey k pfx))) s |> .ok)
    (fun s => (keys.map (fun _ => none), { s with misses := s.misses + keys.length }))
    stats

/-- `CacheService.setMultiple`: pipeline of `setex` writes, then
`sets += entries.length`; fallback returns `false`. -/
def setMultiple (isConnected : Bool) (oc : CallOutcome) (store : Store)
    (entries : List (String × JsVal)) (pfx : Option String) (stats : CacheStats) :
    (Bool × Store) × CacheStats :=
  executeWithFallback isConnected
    (fun s =>
      match oc with
      | .throws m => .err m
      | .succeeds =>
        .ok ((true, entries.foldl
          (fun st e => storeSet st (buildKey e.1 pfx) (serializeValue e.2)) store),
          { s with sets := s.sets + entries.length }))
    (fun s => ((false, store), s))
    stats

/-- `CacheService.invalidatePattern`: scan the keys matching the glob, bulk
delete them and return their count, `0` when nothing matches; fallback
returns `0`. -/
def invalidatePattern (isConnected : Bool) (oc : CallOutcome) (store : Store)
    (pat : String) (stats : CacheStats) :
    (Nat × Store) × CacheStats :=
  executeWithFallback isConnected
    (fun s =>
      match oc with
      | .throws m => .err m
      | .succeeds =>
        let keys := storeKeys store pat
        if keys.length > 0 then .ok ((keys.length, storeDel store keys), s)
        else .ok ((0, store), s))
    (fun s => ((0, store), s))
    stats

/-- `Math.round` on the non-negative values produced by the hit-rate
computation: floor of `x + 1/2`. -/
def jsRound (q : ℚ) : ℤ := ⌊q + 1 / 2⌋

/-- `CacheService.getStats`: the counters plus the derived hit rate,
`Math.round(hitRate * 100) / 100` of `hits / (hits + misses) * 100`, and `0`
when no request was recorded. -/
def getStats (s : CacheStats) : CacheStats × ℚ :=
  let totalRequests := s.hits + s.misses
  let hitRate : ℚ :=
    if totalRequests > 0 then ((s.hits : ℚ) / (totalRequests : ℚ)) * 100 else 0
  (s, (jsRound (hitRate * 100) : ℚ) / 100)

/-- Health classification of `CacheService.healthCheck`. -/
inductive HealthStatus where
  | healthy : HealthStatus
  | degraded : HealthStatus
  | unhealthy : HealthStatus
deriving DecidableEq

/-- The object returned by `CacheService.healthCheck`. -/
structure HealthReport where
  status : HealthStatus
  latency : Option Nat
  error : Option String
deriving DecidableEq

/-- `CacheService.healthCheck`: ping and measure elapsed milliseconds; under
100 is `healthy`, at or above 100 is `degraded`; a throwing probe is
`unhealthy` carrying the error message.  The measured latency is
environmental and passed in. -/
def healthCheck (pingOutcome : CallOutcome) (latency : Nat) (stats : CacheStats) :
    HealthReport × CacheStats :=
  match pingOutcome with
  | .succeeds =>
    ({ status := if latency < 100 then .healthy else .degraded,
       latency := some latency, error := none }, stats)
  | .throws m =>
    ({ status := .unhealthy, latency := none, error := some m }, stats)

/-- `CacheService.resetStats`: zero every counter. -/
def resetStats (_stats : CacheStats) : CacheStats :=
  { hits := 0, misses := 0, sets := 0, deletes := 0, errors := 0 }

end CacheService

/-! ### Response-cache and invalidation middlewares (cache.middleware.ts) -/

/-- The request data the cache middlewares read: method, path, parsed query
parameters in arrival order, and the authenticated user id (`none` for an
unauthenticated request). -/
structure MwRequest where
  method : String
  path : String
  query : List (String × String)
  userId : Option String
deriving DecidableEq

/-- The response data the cacheability predicates read. -/
structure MwResponse where
  statusCode : Nat
  cacheControl : Option String
deriving DecidableEq

/-- JavaScript `String.prototype.includes`. -/
def containsSubstr (s sub : String) : Bool :=
  s.data.tails.any (fun t => sub.data.isPrefixOf t)

/-- Whether the response's `Cache-Control` header contains a `no-cache`
directive (`false` when the header is absent, matching the optional
chaining in the source). -/
def hasNoCacheDirective (res : MwResponse) : Bool :=
  match res.cacheControl with
  | some cc => containsSubstr cc "no-cache"
  | none => false

/-- `defaultCondition`: no error status and no `no-cache` directive. -/
def defaultCondition (_req : MwRequest) (res : MwResponse) : Bool :=
  decide (res.statusCode < 400) && !(hasNoCacheDirective res)

/-- JavaScript `parseInt(x) || d`: leading decimal digits of the string, or
the default when the argument is missing, not numeric, or parses to the
falsy `0`. -/
def parseIntOr (s : Option String) (d : Nat) : Nat :=
  match s with
  | none => d
  | some txt =>
    match txt.data with
    | c :: t =>
      if isDigitChar c then
        let n := (readDigits (c :: t) 0).1
        if n = 0 then d else n
      else d
    | [] => d

/-- First binding of a query parameter. -/
def lookupQuery (req : MwRequest) (k : String) : Option String :=
  (List.find? (fun e => e.1 == k) req.query).map (fun e => e.2)

/-- The `condition` of `reportsListCache`: status exactly 200 and standard
pagination (`page <= 10`, `limit <= 100`). -/
def reportsListCondition (req : MwRequest) (res : MwResponse) : Bool :=
  let page := parseIntOr (lookupQuery req "page") 1
  let limit := parseIntOr (lookupQuery req "limit") 20
  (res.statusCode == 200) && decide (page ≤ 10) && decide (limit ≤ 100)

/-- The guard of the `res.json` override in `cacheMiddleware`: the response
triple is written to the cache exactly when
`condition(req, res) && res.statusCode >= 200 && res.statusCode < 300`. -/
def shouldStoreResponse (condition : MwRequest → MwResponse → Bool)
    (req : MwRequest) (res : MwResponse) : Bool :=
  condition req res && decide (200 ≤ res.statusCode) && decide (res.statusCode < 300)

/-- `new URLSearchParams(query).toString()`: ampersand-joined `k=v` pairs in
insertion order (percent-encoding is omitted; the inputs considered here are
alphanumeric, on which the encoding is the identity). -/
def urlSearchParamsString (q : List (String × String)) : String :=
  String.intercalate "&" (q.map (fun kv => kv.1 ++ "=" ++ kv.2))

/-- `defaultKeyGenerator`: `METHOD:PATH[:query-string]:user:USER`, where the
user component is `req.user?.id || 'anonymous'` (so a missing user — or the
falsy empty id — becomes the anonymous sentinel). -/
def defaultKeyGenerator (req : MwRequest) : String :=
  let userId := match req.userId with
    | some u => if u = "" then "anonymous" else u
    | none => "anonymous"
  let queryString := urlSearchParamsString req.query
  let baseKey := req.method ++ ":" ++ req.path
  if queryString ≠ "" then baseKey ++ ":" ++ queryString ++ ":user:" ++ userId
  else baseKey ++ ":user:" ++ userId

/-- Observable cache-layer actions of one `cacheMiddleware` invocation. -/
inductive CacheEffect where
  | storeLookup : String → CacheEffect
  | setHeader : String → String → CacheEffect
deriving DecidableEq

/-- What one `cacheMiddleware` invocation did: the cache/header effects it
performed, in order, and whether the downstream handler was invoked. -/
structure MwOutcome where
  effects : List CacheEffect
  nextCalled : Bool
deriving DecidableEq

/-- The entry logic of `cacheMiddleware`: bypass non-GET or skipped requests
entirely (no cache interaction, request passed through); otherwise look the
key up, replay a hit with `X-Cache: HIT` and `Cache-Control` headers without
invoking the handler, or mark `X-Cache: MISS` and continue.  `cachedLookup`
is the current content of the `response` namespace of the cache. -/
def cacheMiddlewareRun (skipCache : MwRequest → Bool) (keyGen : MwRequest → String)
    (ttl : Nat) (cachedLookup : String → Option (Nat × String)) (req : MwRequest) :
    MwOutcome :=
  if req.method != "GET" || skipCache req then
    { effects := [], nextCalled := true }
  else
    let cacheKey := keyGen req
    match cachedLookup cacheKey with
    | some _ =>
      { effects := [.storeLookup cacheKey, .setHeader "X-Cache" "HIT",
          .setHeader "Cache-Control" ("max-age=" ++ toString ttl)],
        nextCalled := false }
    | none =>
      { effects := [.storeLookup cacheKey, .setHeader "X-Cache" "MISS"],
        nextCalled := true }

/-- The `res.json` override installed by `invalidateCache(patterns)`: the
list of patterns passed to `invalidatePattern`, one call per element, which
is `patterns` itself when the status is in `[200, 300)` and empty
otherwise. -/
def invalidateCacheOnJson (patterns : List String) (statusCode : Nat) : List String :=
  if decide (200 ≤ statusCode) && decide (statusCode < 300) then patterns else []

/-! ### Helper lemmas for the claims -/

/-- Componentwise order on the counter set. -/
def statsLe (a b : CacheStats) : Prop :=
  a.hits ≤ b.hits ∧ a.misses ≤ b.misses ∧ a.sets ≤ b.sets ∧
    a.deletes ≤ b.deletes ∧ a.errors ≤ b.errors

theorem mapResults_statsLe (rs : List (Option String)) (s : CacheStats) :
    statsLe s (CacheService.mapResults rs s).2 := by
  induction rs generalizing s with
  | nil => exact ⟨le_rfl, le_rfl, le_rfl, le_rfl, le_rfl⟩
  | cons r rest ih =>
    cases r with
    | some raw =>
      have h := ih { s with hits := s.hits + 1 }
      obtain ⟨h1, h2, h3, h4, h5⟩ := h
      refine ⟨?_, ?_, ?_, ?_, ?_⟩ <;>
        simp only [CacheService.mapResults] at * <;> omega
    | none =>
      have h := ih { s with misses := s.misses + 1 }
      obtain ⟨h1, h2, h3, h4, h5⟩ := h
      refine ⟨?_, ?_, ?_, ?_, ?_⟩ <;>
        simp only [CacheService.mapResults] at * <;> omega

/-! ### The claims -/

/-- Claim C1: every cache operation among get, set, delete, exists and
invalidatePattern, invoked while the store connection flag is down, does not
contact the store (its result is the same for every store and the store is
returned unchanged) and returns its safe default — `null` for get, `false`
for set, delete and exists, `0` for invalidatePattern — and, the embedding
being total, no exception escapes; if instead the store is connected and the
underlying call throws, the operation returns the same safe default and
increments the `errors` counter by exactly one. -/
theorem fail_open_safe_defaults
    (oc : CallOutcome) (store : Store) (stats : CacheStats)
    (k pat : String) (v : JsVal) (pfx : Option String) (m : String) :
    ((CacheService.get false oc store k pfx stats).1 = none) ∧
    ((CacheService.set false oc store k v pfx stats).1 = (false, store)) ∧
    ((CacheService.delete false oc store k pfx stats).1 = (false, store)) ∧
    ((CacheService.existsOp false oc store k pfx stats).1 = false) ∧
    ((CacheService.invalidatePattern false oc store pat stats).1 = (0, store)) ∧
    ((CacheService.get false oc store k pfx stats).2.errors = stats.errors) ∧
    ((CacheService.get true (.throws m) store k pfx stats).1 = none ∧
      (CacheService.get true (.throws m) store k pfx stats).2.errors = stats.errors + 1) ∧
    ((CacheService.set true (.throws m) store k v pfx stats).1 = (false, store) ∧
      (CacheService.set true (.throws m) store k v pfx stats).2.errors = stats.errors + 1) ∧
    ((CacheService.delete true (.throws m) store k pfx stats).1 = (false, store) ∧
      (CacheService.delete true (.throws m) store k pfx stats).2.errors = stats.errors + 1) ∧
    ((CacheService.existsOp true (.throws m) store k pfx stats).1 = false ∧
      (CacheService.existsOp true (.throws m) store k pfx stats).2.errors = stats.errors + 1) ∧
    ((CacheService.invalidatePattern true (.throws m) store pat stats).1 = (0, store) ∧
      (CacheService.invalidatePattern true (.throws m) store pat stats).2.errors =
        stats.errors + 1) :=
  ⟨rfl, rfl, rfl, rfl, rfl, rfl, ⟨rfl, rfl⟩, ⟨rfl, rfl⟩, ⟨rfl, rfl⟩, ⟨rfl, rfl⟩, ⟨rfl, rfl⟩⟩

/-- Claim C7: with the store connection down, getMultiple does not attempt
the call (the result is independent of the store, which is quantified) and
immediately returns one `null` per requested key — the batched-read safe
default — while bumping the `misses` counter once per key. -/
theorem get_multiple_disconnected (oc : CallOutcome) (store : Store)
    (keys : List String) (pfx : Option String) (stats : CacheStats) :
    (CacheService.getMultiple false oc store keys pfx stats).1 =
      List.replicate keys.length none ∧
    (∀ r ∈ (CacheService.getMultiple false oc store keys pfx stats).1, r = none) ∧
    (CacheService.getMultiple false oc store keys pfx stats).2 =
      { stats with misses := stats.misses + keys.length } := by
  refine ⟨?_, ?_, rfl⟩
  · show keys.map (fun _ => none) = _
    induction keys with
    | nil => rfl
    | cons a t ih => simp [List.replicate, ih]
  · intro r hr
    have hr2 : r ∈ keys.map (fun _ => (none : Option JsVal)) := hr
    obtain ⟨_, _, h⟩ := List.mem_map.mp hr2
    exact h.symm

/-- Claim C8: healthCheck classifies a successful probe with latency
strictly below 100 ms as healthy (reporting the latency), a successful probe
at or above 100 ms as degraded, and a throwing probe as unhealthy with the
thrown error message attached. -/
theorem health_check_classification (lat : Nat) (stats : CacheStats) (m : String) :
    (lat < 100 → (CacheService.healthCheck .succeeds lat stats).1.status = .healthy) ∧
    (100 ≤ lat → (CacheService.healthCheck .succeeds lat stats).1.status = .degraded) ∧
    (CacheService.healthCheck .succeeds lat stats).1.latency = some lat ∧
    (CacheService.healthCheck (.throws m) lat stats).1.status = .unhealthy ∧
    (CacheService.healthCheck (.throws m) lat stats).1.error = some m := by
  refine ⟨fun h => ?_, fun h => ?_, rfl, rfl, rfl⟩
  · show (if lat < 100 then CacheService.HealthStatus.healthy else .degraded) = _
    rw [if_pos h]
  · show (if lat < 100 then CacheService.HealthStatus.healthy else .degraded) = _
    rw [if_neg (by omega)]

/-- Witness for C8 at concrete latencies 50 and 150. -/
theorem health_check_classification_witness :
    (CacheService.healthCheck .succeeds 50 ⟨0, 0, 0, 0, 0⟩).1.status = .healthy ∧
    (CacheService.healthCheck .succeeds 150 ⟨0, 0, 0, 0, 0⟩).1.status = .degraded :=
  ⟨(health_check_classification 50 ⟨0, 0, 0, 0, 0⟩ "e").1 (by decide),
   (health_check_classification 150 ⟨0, 0, 0, 0, 0⟩ "e").2.1 (by decide)⟩

/-- Claim C9: a request whose method is not GET, or for which the skip
predicate returns true, is bypassed by the response-cache middleware: no
cache lookup or write effect, no header added (so no stats counter can
change), and the request is passed to the downstream handler. -/
theorem cache_middleware_bypass (skip : MwRequest → Bool) (keyGen : MwRequest → String)
    (ttl : Nat) (lookup : String → Option (Nat × String)) (req : MwRequest)
    (h : req.method ≠ "GET" ∨ skip req = true) :
    cacheMiddlewareRun skip keyGen ttl lookup req =
      { effects := [], nextCalled := true } := by
  unfold cacheMiddlewareRun
  have hb : (req.method != "GET" || skip req) = true := by
    rcases h with h | h
    · rw [bne_iff_ne.mpr h, Bool.true_or]
    · rw [h, Bool.or_true]
  rw [hb]
  rfl

/-- Witness for C9: a POST request is bypassed. -/
theorem cache_middleware_bypass_witness :
    cacheMiddlewareRun (fun _ => false) defaultKeyGenerator 300 (fun _ => none)
      { method := "POST", path := "/reports", query := [], userId := none } =
      { effects := [], nextCalled := true } :=
  cache_middleware_bypass _ _ _ _ _ (Or.inl (by decide))

/-- Claim C6: the invalidation middleware calls invalidatePattern once per
declared pattern after a response whose status is in [200, 300), and never
calls it for a terminal status outside that range. -/
theorem invalidate_on_success_only (patterns : List String) (s : Nat) (p : String) :
    (200 ≤ s → s < 300 → invalidateCacheOnJson patterns s = patterns ∧
      (invalidateCacheOnJson patterns s).count p = patterns.count p) ∧
    ((s < 200 ∨ 300 ≤ s) → invalidateCacheOnJson patterns s = []) := by
  constructor
  · intro h1 h2
    have he : invalidateCacheOnJson patterns s = patterns := by
      unfold invalidateCacheOnJson
      rw [decide_eq_true h1, decide_eq_true h2]
      rfl
    exact ⟨he, by rw [he]⟩
  · intro h
    have hc : (decide (200 ≤ s) && decide (s < 300)) = false := by
      rcases h with h | h
      · rw [decide_eq_false (by omega : ¬(200 ≤ s))]
        rfl
      · rw [decide_eq_false (by omega : ¬(s < 300))]
        exact Bool.and_false _
    unfold invalidateCacheOnJson
    rw [hc]
    rfl

/-- Witness for C6 at status 201 (invalidates) and 404 (does not). -/
theorem invalidate_on_success_only_witness :
    invalidateCacheOnJson ["response:reports:*", "response:reports:stats"] 201 =
      ["response:reports:*", "response:reports:stats"] ∧
    invalidateCacheOnJson ["response:reports:*", "response:reports:stats"] 404 = [] :=
  ⟨((invalidate_on_success_only _ 201 "x").1 (by decide) (by decide)).1,
   (invalidate_on_success_only _ 404 "x").2 (Or.inr (by decide))⟩

/-- The spec's `round(x, 2)`: rounding to two decimal places, half up (the
behavior of `Math.round` on the non-negative rates at issue). -/
def specRound2 (q : ℚ) : ℚ := ((⌊q * 100 + 1 / 2⌋ : ℤ) : ℚ) / 100

/-- Claim C5: with H hits and M misses recorded and H+M > 0, the hit rate
reported by getStats is H/(H+M)·100 rounded to two decimal places; with
H = M = 0 it is 0. -/
theorem hit_rate_formula (s : CacheStats) :
    (0 < s.hits + s.misses →
      (CacheService.getStats s).2 =
        specRound2 (((s.hits : ℚ) / ((s.hits : ℚ) + (s.misses : ℚ))) * 100)) ∧
    (s.hits = 0 → s.misses = 0 → (CacheService.getStats s).2 = 0) := by
  constructor
  · intro h
    simp only [CacheService.getStats, CacheService.jsRound, specRound2]
    rw [if_pos h]
    push_cast
    ring_nf
  · intro h1 h2
    simp only [CacheService.getStats, CacheService.jsRound]
    rw [if_neg (by omega)]
    rw [show (0 : ℚ) * 100 + 1 / 2 = 1 / 2 by ring]
    rw [show ⌊(1 / 2 : ℚ)⌋ = 0 from by rw [Int.floor_eq_iff]; norm_num]
    norm_num

/-- Witness for C5 at one hit, two misses, and at the empty stats. -/
theorem hit_rate_formula_witness :
    (CacheService.getStats ⟨1, 2, 0, 0, 0⟩).2 =
      specRound2 ((((⟨1, 2, 0, 0, 0⟩ : CacheStats).hits : ℚ) /
        (((⟨1, 2, 0, 0, 0⟩ : CacheStats).hits : ℚ) +
          ((⟨1, 2, 0, 0, 0⟩ : CacheStats).misses : ℚ))) * 100) ∧
    (CacheService.getStats ⟨0, 0, 0, 0, 0⟩).2 = 0 :=
  ⟨(hit_rate_formula ⟨1, 2, 0, 0, 0⟩).1 (by decide),
   (hit_rate_formula ⟨0, 0, 0, 0, 0⟩).2 rfl rfl⟩

/-- Claim C10: every cache operation leaves each counter at or above its
previous value; resetStats sets all five counters to zero (and is thus the
only operation that can decrease one). -/
theorem counters_monotone (conn : Bool) (oc : CallOutcome) (store : Store)
    (stats : CacheStats) (k pat : String) (v : JsVal) (pfx : Option String)
    (keys : List String) (entries : List (String × JsVal)) (optPat : Option String)
    (lat : Nat) :
    statsLe stats (CacheService.get conn oc store k pfx stats).2 ∧
    statsLe stats (CacheService.set conn oc store k v pfx stats).2 ∧
    statsLe stats (CacheService.delete conn oc store k pfx stats).2 ∧
    statsLe stats (CacheService.existsOp conn oc store k pfx stats).2 ∧
    statsLe stats (CacheService.getMultiple conn oc store keys pfx stats).2 ∧
    statsLe stats (CacheService.setMultiple conn oc store entries pfx stats).2 ∧
    statsLe stats (CacheService.invalidatePattern conn oc store pat stats).2 ∧
    statsLe stats (CacheService.flush conn oc store optPat stats).2 ∧
    statsLe stats (CacheService.healthCheck oc lat stats).2 ∧
    CacheService.resetStats stats =
      { hits := 0, misses := 0, sets := 0, deletes := 0, errors := 0 } := by
  refine ⟨?_, ⟨?_, ⟨?_, ⟨?_, ⟨?_, ⟨?_, ⟨?_, ⟨?_, ⟨?_, rfl⟩⟩⟩⟩⟩⟩⟩⟩⟩
  · cases conn <;> cases oc
    · exact ⟨le_rfl, Nat.le_succ _, le_rfl, le_rfl, le_rfl⟩
    · exact ⟨le_rfl, Nat.le_succ _, le_rfl, le_rfl, le_rfl⟩
    · cases h : storeGet store (buildKey k pfx) with
      | none =>
        simp only [CacheService.get, executeWithFallback, h]
        exact ⟨le_rfl, Nat.le_succ _, le_rfl, le_rfl, le_rfl⟩
      | some raw =>
        simp only [CacheService.get, executeWithFallback, h]
        exact ⟨Nat.le_succ _, le_rfl, le_rfl, le_rfl, le_rfl⟩
    · exact ⟨le_rfl, Nat.le_succ _, le_rfl, le_rfl, Nat.le_succ _⟩
  · cases conn <;> cases oc
    · exact ⟨le_rfl, le_rfl, le_rfl, le_rfl, le_rfl⟩
    · exact ⟨le_rfl, le_rfl, le_rfl, le_rfl, le_rfl⟩
    · exact ⟨le_rfl, le_rfl, Nat.le_succ _, le_rfl, le_rfl⟩
    · exact ⟨le_rfl, le_rfl, le_rfl, le_rfl, Nat.le_succ _⟩
  · cases conn <;> cases oc
    · exact ⟨le_rfl, le_rfl, le_rfl, le_rfl, le_rfl⟩
    · exact ⟨le_rfl, le_rfl, le_rfl, le_rfl, le_rfl⟩
    · exact ⟨le_rfl, le_rfl, le_rfl, Nat.le_succ _, le_rfl⟩
    · exact ⟨le_rfl, le_rfl, le_rfl, le_rfl, Nat.le_succ _⟩
  · cases conn <;> cases oc
    · exact ⟨le_rfl, le_rfl, le_rfl, le_rfl, le_rfl⟩
    · exact ⟨le_rfl, le_rfl, le_rfl, le_rfl, le_rfl⟩
    · exact ⟨le_rfl, le_rfl, le_rfl, le_rfl, le_rfl⟩
    · exact ⟨le_rfl, le_rfl, le_rfl, le_rfl, Nat.le_succ _⟩
  · cases conn <;> cases oc
    · exact ⟨le_rfl, Nat.le_add_right _ _, le_rfl, le_rfl, le_rfl⟩
    · exact ⟨le_rfl, Nat.le_add_right _ _, le_rfl, le_rfl, le_rfl⟩
    · exact mapResults_statsLe _ stats
    · exact ⟨le_rfl, Nat.le_add_right _ _, le_rfl, le_rfl, Nat.le_succ _⟩
  · cases conn <;> cases oc
    · exact ⟨le_rfl, le_rfl, le_rfl, le_rfl, le_rfl⟩
    · exact ⟨le_rfl, le_rfl, le_rfl, le_rfl, le_rfl⟩
    · exact ⟨le_rfl, le_rfl, Nat.le_add_right _ _, le_rfl, le_rfl⟩
    · exact ⟨le_rfl, le_rfl, le_rfl, le_rfl, Nat.le_succ _⟩
  · cases conn <;> cases oc
    · exact ⟨le_rfl, le_rfl, le_rfl, le_rfl, le_rfl⟩
    · exact ⟨le_rfl, le_rfl, le_rfl, le_rfl, le_rfl⟩
    · simp only [CacheService.invalidatePattern, executeWithFallback]
      by_cases hk : (storeKeys store pat).length > 0
      · rw [if_pos hk]
        exact ⟨le_rfl, le_rfl, le_rfl, le_rfl, le_rfl⟩
      · rw [if_neg hk]
        exact ⟨le_rfl, le_rfl, le_rfl, le_rfl, le_rfl⟩
    · exact ⟨le_rfl, le_rfl, le_rfl, le_rfl, Nat.le_succ _⟩
  · cases conn <;> cases oc
    · exact ⟨le_rfl, le_rfl, le_rfl, le_rfl, le_rfl⟩
    · exact ⟨le_rfl, le_rfl, le_rfl, le_rfl, le_rfl⟩
    · cases optPat with
      | none => exact ⟨le_rfl, le_rfl, le_rfl, le_rfl, le_rfl⟩
      | some p =>
        simp only [CacheService.flush, executeWithFallback]
        by_cases hk : (storeKeys store p).length > 0
        · rw [if_pos hk]
          exact ⟨le_rfl, le_rfl, le_rfl, le_rfl, le_rfl⟩
        · rw [if_neg hk]
          exact ⟨le_rfl, le_rfl, le_rfl, le_rfl, le_rfl⟩
    · exact ⟨le_rfl, le_rfl, le_rfl, le_rfl, Nat.le_succ _⟩
  · cases oc
    · exact ⟨le_rfl, le_rfl, le_rfl, le_rfl, le_rfl⟩
    · exact ⟨le_rfl, le_rfl, le_rfl, le_rfl, le_rfl⟩

/-! ### Round trip of the cache payloads (claim C2) -/

theorem storeGet_storeSet (st : Store) (k p : String) :
    storeGet (storeSet st k p) k = some p := by
  simp [storeGet, storeSet, List.find?]

theorem deserialize_stringify (v : JsVal) : deserialize (stringify v) = v := by
  unfold deserialize
  rw [parseJson_stringify]

/-- Claim C2 counterexample: storing the string "1" succeeds and stores the
payload "1" verbatim, but the following get parses that payload as JSON and
returns the number 1, which is not deep-equal to the stored string — the
round trip fails for strings whose text parses as JSON. -/
theorem set_get_roundtrip_cex :
    (CacheService.set true .succeeds [] "k" (JsVal.str "1") none ⟨0, 0, 0, 0, 0⟩).1.1 = true ∧
    (CacheService.get true .succeeds
        (CacheService.set true .succeeds [] "k" (JsVal.str "1") none ⟨0, 0, 0, 0, 0⟩).1.2
        "k" none
        (CacheService.set true .succeeds [] "k" (JsVal.str "1") none ⟨0, 0, 0, 0, 0⟩).2).1 =
      some (JsVal.num 1) ∧
    JsVal.num 1 ≠ JsVal.str "1" :=
  ⟨rfl, rfl, by simp⟩

/-- Claim C2 (amended): a successful set(k, v) followed by get(k), with no
intervening expiry or deletion, yields a value deep-equal to v for every
non-string JSON-serializable v; for every string v the stored payload equals
v exactly, with no added quoting, and the round trip yields v again provided
the text of v does not itself parse as JSON (a string that parses as JSON is
returned as the parsed value instead, as the counterexample shows). -/
theorem set_get_roundtrip (store : Store) (stats : CacheStats) (k : String) (v : JsVal) :
    ((∀ s, v ≠ JsVal.str s) →
      (CacheService.get true .succeeds
        (CacheService.set true .succeeds store k v none stats).1.2 k none
        (CacheService.set true .succeeds store k v none stats).2).1 = some v) ∧
    (∀ s, v = JsVal.str s →
      storeGet (CacheService.set true .succeeds store k v none stats).1.2 k = some s ∧
      (parseJson s = none →
        (CacheService.get true .succeeds
          (CacheService.set true .succeeds store k v none stats).1.2 k none
          (CacheService.set true .succeeds store k v none stats).2).1 =
          some (JsVal.str s))) := by
  constructor
  · intro h
    have hs : serializeValue v = stringify v := by
      cases v with
      | str s => exact absurd rfl (h s)
      | null => rfl
      | bool b => rfl
      | num n => rfl
      | arr es => rfl
      | obj fs => rfl
    have hval : deserialize (serializeValue v) = v := by
      rw [hs]
      exact deserialize_stringify v
    simp only [CacheService.get, CacheService.set, executeWithFallback, if_true,
      storeGet_storeSet, hval]
  · intro s hv
    subst hv
    refine ⟨storeGet_storeSet store k s, fun hp => ?_⟩
    have hval : deserialize (serializeValue (JsVal.str s)) = JsVal.str s := by
      show deserialize s = _
      unfold deserialize
      rw [hp]
    simp only [CacheService.get, CacheService.set, executeWithFallback, if_true,
      storeGet_storeSet, hval]

/-- Witness for the amended C2: a one-element array round-trips, and a
non-JSON string round-trips with its raw payload stored. -/
theorem set_get_roundtrip_witness :
    ((CacheService.get true .succeeds
        (CacheService.set true .succeeds [] "k" (JsVal.arr [JsVal.num 7]) none
          ⟨0, 0, 0, 0, 0⟩).1.2 "k" none
        (CacheService.set true .succeeds [] "k" (JsVal.arr [JsVal.num 7]) none
          ⟨0, 0, 0, 0, 0⟩).2).1 = some (JsVal.arr [JsVal.num 7])) ∧
    (storeGet (CacheService.set true .succeeds [] "k" (JsVal.str "abc") none
        ⟨0, 0, 0, 0, 0⟩).1.2 "k" = some "abc") ∧
    ((CacheService.get true .succeeds
        (CacheService.set true .succeeds [] "k" (JsVal.str "abc") none
          ⟨0, 0, 0, 0, 0⟩).1.2 "k" none
        (CacheService.set true .succeeds [] "k" (JsVal.str "abc") none
          ⟨0, 0, 0, 0, 0⟩).2).1 = some (JsVal.str "abc")) :=
  ⟨(set_get_roundtrip [] ⟨0, 0, 0, 0, 0⟩ "k" (JsVal.arr [JsVal.num 7])).1
      (fun _ h => JsVal.noConfusion h),
   ((set_get_roundtrip [] ⟨0, 0, 0, 0, 0⟩ "k" (JsVal.str "abc")).2 "abc" rfl).1,
   ((set_get_roundtrip [] ⟨0, 0, 0, 0, 0⟩ "k" (JsVal.str "abc")).2 "abc" rfl).2 rfl⟩

/-! ### Cacheability of responses (claim C3) -/

/-- Claim C3 counterexample: under the reports-list cache condition (which
checks only the status code and pagination), a 200 response whose
Cache-Control header contains a no-cache directive is still written to the
cache, contradicting the claim that a response is persisted only when its
Cache-Control has no no-cache directive. -/
theorem response_cache_condition_cex :
    shouldStoreResponse reportsListCondition
      { method := "GET", path := "/reports", query := [], userId := some "u" }
      { statusCode := 200, cacheControl := some "no-cache" } = true ∧
    hasNoCacheDirective { statusCode := 200, cacheControl := some "no-cache" } = true := by
  exact ⟨by decide, by decide⟩

/-- Claim C3 (amended): for every configured condition, the response triple
is written to the cache only when the terminal status code is in the 2xx
range — a response outside 2xx is never persisted; under the default
condition the write happens exactly when the status is 2xx and the
Cache-Control header contains no no-cache directive.  A custom condition
that does not inspect Cache-Control (such as the reports-list cache's) may
persist a 2xx response carrying no-cache, as the counterexample shows. -/
theorem response_cache_only_success (cond : MwRequest → MwResponse → Bool)
    (req : MwRequest) (res : MwResponse) :
    (shouldStoreResponse cond req res = true →
      200 ≤ res.statusCode ∧ res.statusCode < 300) ∧
    (shouldStoreResponse defaultCondition req res = true ↔
      (200 ≤ res.statusCode ∧ res.statusCode < 300 ∧ hasNoCacheDirective res = false)) := by
  constructor
  · intro h
    unfold shouldStoreResponse at h
    simp only [Bool.and_eq_true, decide_eq_true_eq] at h
    exact ⟨h.1.2, h.2⟩
  · unfold shouldStoreResponse defaultCondition
    simp only [Bool.and_eq_true, decide_eq_true_eq, Bool.not_eq_true']
    constructor
    · rintro ⟨⟨⟨h1, h2⟩, h3⟩, h4⟩
      exact ⟨h3, h4, h2⟩
    · rintro ⟨h1, h2, h3⟩
      exact ⟨⟨⟨by omega, h3⟩, h1⟩, h2⟩

/-- Witness for the amended C3: a 204 response stored under the default
condition is in the 2xx range, and a 404 response is never stored. -/
theorem response_cache_only_success_witness :
    (200 ≤ (⟨204, none⟩ : MwResponse).statusCode ∧
      (⟨204, none⟩ : MwResponse).statusCode < 300) ∧
    shouldStoreResponse defaultCondition
      ⟨"GET", "/reports", [], some "u"⟩ ⟨204, none⟩ = true :=
  ⟨(response_cache_only_success defaultCondition
      ⟨"GET", "/reports", [], some "u"⟩ ⟨204, none⟩).1 (by decide),
   by decide⟩

/-! ### Cache-key generation (claim C4) -/

/-- Claim C4 counterexample: the default key generator is sensitive to query
parameter insertion order (the same parameter set in two orders yields two
different keys, because URLSearchParams preserves order and the source never
sorts), and two requests differing in path and query set can collide on the
same key (the colon-joined format is not injective). -/
theorem default_key_generator_cex :
    (defaultKeyGenerator
        { method := "GET", path := "/r", query := [("a", "1"), ("b", "2")],
          userId := some "u" } ≠
      defaultKeyGenerator
        { method := "GET", path := "/r", query := [("b", "2"), ("a", "1")],
          userId := some "u" }) ∧
    (defaultKeyGenerator
        { method := "GET", path := "/p", query := [("q", "1")], userId := some "u" } =
      defaultKeyGenerator
        { method := "GET", path := "/p:q=1", query := [], userId := some "u" }) := by
  exact ⟨by decide, by decide⟩

theorem string_append_cancel (a b c : String) (h : a ++ b = a ++ c) : b = c := by
  have hd := congrArg String.data h
  simp only [String.data_append] at hd
  have h2 := List.append_cancel_left hd
  cases b
  cases c
  exact congrArg String.mk h2

/-- Claim C4 (amended): the default key generator is a deterministic
function of method, path, the query parameter list in its arrival order, and
caller identity — identical requests always produce the same key; two
requests identical except for distinct (non-empty) caller ids always produce
distinct keys.  Reordering the same query parameter set or trading path
against query text can change or collide keys, as the counterexample
shows. -/
theorem default_key_generator_det (m p : String) (q : List (String × String))
    (u : Option String) (u1 u2 : String) :
    (defaultKeyGenerator { method := m, path := p, query := q, userId := u } =
      defaultKeyGenerator { method := m, path := p, query := q, userId := u }) ∧
    (u1 ≠ u2 → u1 ≠ "" → u2 ≠ "" →
      defaultKeyGenerator { method := m, path := p, query := q, userId := some u1 } ≠
      defaultKeyGenerator { method := m, path := p, query := q, userId := some u2 }) := by
  refine ⟨rfl, fun hne h1 h2 heq => ?_⟩
  simp only [defaultKeyGenerator] at heq
  rw [if_neg h1, if_neg h2] at heq
  by_cases hq : urlSearchParamsString q ≠ ""
  · rw [if_pos hq, if_pos hq] at heq
    exact hne (string_append_cancel _ _ _ heq)
  · rw [if_neg hq, if_neg hq] at heq
    exact hne (string_append_cancel _ _ _ heq)

/-- Witness for the amended C4: identical requests from two different
callers get different keys. -/
theorem default_key_generator_det_witness :
    defaultKeyGenerator
      { method := "GET", path := "/x", query := [], userId := some "alice" } ≠
    defaultKeyGenerator
      { method := "GET", path := "/x", query := [], userId := some "bob" } :=
  (default_key_generator_det "GET" "/x" [] none "alice" "bob").2
    (by decide) (by decide) (by decide)

/-- Witness for C7 on two keys against an empty store. -/
theorem get_multiple_disconnected_witness :
    (CacheService.getMultiple false .succeeds [] ["a", "b"] none ⟨0, 0, 0, 0, 0⟩).1 =
      List.replicate 2 none ∧
    (none : Option JsVal) = none ∧
    (CacheService.getMultiple false .succeeds [] ["a", "b"] none ⟨0, 0, 0, 0, 0⟩).2 =
      { hits := 0, misses := 2, sets := 0, deletes := 0, errors := 0 } :=
  ⟨(get_multiple_disconnected .succeeds [] ["a", "b"] none ⟨0, 0, 0, 0, 0⟩).1,
   (get_multiple_disconnected .succeeds [] ["a", "b"] none ⟨0, 0, 0, 0, 0⟩).2.1 none
     (List.Mem.head _),
   (get_multiple_disconnected .succeeds [] ["a", "b"] none ⟨0, 0, 0, 0, 0⟩).2.2⟩
